import Mathlib

/-!
Shallow embedding of `lib/Parse/Lexer.cpp` (the scanner of the Swift language
front end: `Lexer::Lex`, `Lexer::SkipSlashSlashComment`, `Lexer::LexIdentifier`,
`Lexer::LexPunctuationIdentifier`, `Lexer::LexDollarIdent`, `Lexer::LexDigit`,
`Lexer::FormToken`), together with proofs about the claims of the specification.

Modelling conventions:
* The memory buffer is a `List Char`; the cursor `CurPtr` is a `Nat` offset.
  `llvm::MemoryBuffer` guarantees a nul terminator at `getBufferEnd()`, so a
  read at offset `buf.length` yields the nul sentinel; `getChar` models this by
  returning `nulChar` at any offset `≥ buf.length` (reads beyond the terminator
  are undefined behaviour in the C++ source; the model totalises them to nul).
* Every `while`/`goto Restart` loop of the source has no syntactic bound, so
  each loop gets an explicit fuel argument; `none` models a computation that
  does not return.  Fuel-sufficiency is proved for every cursor position the
  source's own entry assertion (`CurPtr <= Buffer->getBufferEnd()`) allows.
* Diagnostics (`Lexer::Warning` / `Lexer::Error` printed through `SourceMgr`)
  are modelled as a list of `Diag` records returned alongside the token, in
  emission order.
* `FormToken(Kind, TokStart, Result)` sets the token's text range to
  `[TokStart, CurPtr)`; a `Token` stores the kind, the start offset and the
  length `CurPtr - TokStart`.
-/

/-- The nul sentinel character (`'\0'` in the C++ source). -/
def nulChar : Char := '\x00'

/-- Severity of a reported diagnostic (`Lexer::Warning` / `Lexer::Error`). -/
inductive Severity
  | warning
  | error
deriving DecidableEq

/-- One diagnostic emitted through the source manager: location, message,
severity. -/
structure Diag where
  severity : Severity
  loc : Nat
  msg : String
deriving DecidableEq

/-- The token kinds of `swift/Parse/Tokens.def` that this lexer can produce. -/
inductive TokenKind
  | unknown
  | eof
  | identifier
  | dollarident
  | numeric_constant
  | kw___builtin_int32_type
  | kw_oneof
  | kw_struct
  | kw_var
  | kw_func
  | kw_typealias
  | equal
  | arrow
  | l_paren
  | r_paren
  | l_brace
  | r_brace
  | l_square
  | r_square
  | period
  | comma
  | semi
  | colon
  | coloncolon
deriving DecidableEq

/-- A token: kind plus text range `[start, start+length)` of the buffer, as
set by `Lexer::FormToken`. -/
structure Token where
  kind : TokenKind
  start : Nat
  length : Nat
deriving DecidableEq

/-- Reading the character at a cursor offset.  At `buf.length` this is the
nul terminator guaranteed by `llvm::MemoryBuffer`. -/
def getChar (buf : List Char) (pos : Nat) : Char := buf.getD pos nulChar

/-- The text of the half-open buffer range `[a, b)`. -/
def bufSlice (buf : List Char) (a b : Nat) : List Char :=
  List.take (b - a) (List.drop a buf)

/-- The text range stored in a token, as a slice of the buffer. -/
def tokenText (buf : List Char) (t : Token) : List Char :=
  bufSlice buf t.start (t.start + t.length)

/-- The warning `"nul character embedded in middle of file"` at a location. -/
def nulWarning (p : Nat) : Diag :=
  ⟨Severity.warning, p, "nul character embedded in middle of file"⟩

/-- The warning `"no newline at end of // comment"` at a location. -/
def noNewlineWarning (p : Nat) : Diag :=
  ⟨Severity.warning, p, "no newline at end of // comment"⟩

/-- The error `"invalid character in source file"` at a location. -/
def invalidCharError (p : Nat) : Diag :=
  ⟨Severity.error, p, "invalid character in source file"⟩

/-- Whitespace characters skipped by the dispatch loop of `Lexer::Lex`
(cases `' '`, `'\t'`, `'\n'`, `'\r'`). -/
def isWs (c : Char) : Prop := c = ' ' ∨ c = '\t' ∨ c = '\n' ∨ c = '\r'

instance : DecidablePred isWs := fun c => by unfold isWs; infer_instance

/-- A letter, as listed in the 52 explicit `case 'A': ... case 'z':` labels of
the dispatch switch, and as accepted by C `isalpha` on ASCII. -/
def isLetter (c : Char) : Prop := ('A' ≤ c ∧ c ≤ 'Z') ∨ ('a' ≤ c ∧ c ≤ 'z')

instance : DecidablePred isLetter := fun c => by unfold isLetter; infer_instance

/-- Identifier start characters: the letter cases plus `case '_'`. -/
def isIdentStart (c : Char) : Prop := isLetter c ∨ c = '_'

instance : DecidablePred isIdentStart := fun c => by unfold isIdentStart; infer_instance

/-- A decimal digit (C `isdigit`, and the `case '0': ... case '9':` labels). -/
def isDigitChar (c : Char) : Prop := '0' ≤ c ∧ c ≤ '9'

instance : DecidablePred isDigitChar := fun c => by unfold isDigitChar; infer_instance

/-- Identifier continuation characters: `isalnum(*CurPtr) || *CurPtr == '_' ||
*CurPtr == '$'` in `LexIdentifier` / `LexDollarIdent`. -/
def isIdentCont (c : Char) : Prop := isLetter c ∨ isDigitChar c ∨ c = '_' ∨ c = '$'

instance : DecidablePred isIdentCont := fun c => by unfold isIdentCont; infer_instance

/-- The punctuator characters dispatched directly to
`LexPunctuationIdentifier`: `= - + * % < > ! & | ^` (the `'/'` case is
dispatched separately because of comments). -/
def isOpDispatch (c : Char) : Prop :=
  c = '=' ∨ c = '-' ∨ c = '+' ∨ c = '*' ∨ c = '%' ∨ c = '<' ∨ c = '>' ∨
  c = '!' ∨ c = '&' ∨ c = '|' ∨ c = '^'

instance : DecidablePred isOpDispatch := fun c => by unfold isOpDispatch; infer_instance

/-- Membership in `PunctuatorCharacters = "/=-+*%<>!&|^"`, the set scanned by
`strspn` in `LexPunctuationIdentifier`. -/
def isPunctChar (c : Char) : Prop := c = '/' ∨ isOpDispatch c

instance : DecidablePred isPunctChar := fun c => by unfold isPunctChar; infer_instance

/-- Characters matched by some case of the dispatch switch of `Lexer::Lex`
(everything except the `default:` invalid-character case). -/
def isHandled (c : Char) : Prop :=
  isWs c ∨ c = nulChar ∨ c = '(' ∨ c = ')' ∨ c = '\x7b' ∨ c = '\x7d' ∨
  c = '[' ∨ c = ']' ∨ c = '.' ∨ c = ',' ∨ c = ';' ∨ c = ':' ∨ c = '/' ∨
  isOpDispatch c ∨ isIdentStart c ∨ c = '$' ∨ isDigitChar c

instance : DecidablePred isHandled := fun c => by unfold isHandled; infer_instance

/-- The greedy extension loop shared by the sub-scanners:
`while (p(*CurPtr)) ++CurPtr;` (and `strspn`, whose set never contains nul).
Returns the cursor after the run.  The loop has no syntactic bound, hence the
fuel; every predicate used rejects `nulChar`, so fuel `buf.length - pos`
always suffices (proved below). -/
def scanWhile (buf : List Char) (p : Char → Prop) [DecidablePred p] :
    Nat → Nat → Nat
  | 0, pos => pos
  | fuel + 1, pos =>
    if p (getChar buf pos) then scanWhile buf p fuel (pos + 1) else pos

/-- The reserved-word lookup of `LexIdentifier` (the `llvm::StringSwitch`),
in source order; any other spelling is a generic identifier. -/
def keywordKind (s : List Char) : TokenKind :=
  if s = "__builtin_int32_type".toList then TokenKind.kw___builtin_int32_type
  else if s = "oneof".toList then TokenKind.kw_oneof
  else if s = "struct".toList then TokenKind.kw_struct
  else if s = "var".toList then TokenKind.kw_var
  else if s = "func".toList then TokenKind.kw_func
  else if s = "typealias".toList then TokenKind.kw_typealias
  else TokenKind.identifier

/-- `Lexer::LexIdentifier`.  Entered with the cursor just past the triggering
character (`TokStart = CurPtr - 1`); matches `[a-zA-Z_$0-9]*`, then looks the
spelling up in the reserved-word table and forms the token. -/
def lexIdentifier (buf : List Char) (fuel pos : Nat) : Token × Nat :=
  let tokStart := pos - 1
  let e := scanWhile buf isIdentCont fuel pos
  (⟨keywordKind (bufSlice buf tokStart e), tokStart, e - tokStart⟩, e)

/-- `Lexer::LexPunctuationIdentifier`.  Entered with the cursor just past the
triggering character; `CurPtr += strspn(CurPtr, "/=-+*%<>!&|^")`, then a
one-character run `=` is reclassified as `equal`, a two-character run `->`
as `arrow`, and anything else keeps `identifier`. -/
def lexPunctuationIdentifier (buf : List Char) (fuel pos : Nat) : Token × Nat :=
  let tokStart := pos - 1
  let e := scanWhile buf isPunctChar fuel pos
  let kind :=
    if e - tokStart = 1 then
      if getChar buf tokStart = '=' then TokenKind.equal else TokenKind.identifier
    else if e - tokStart = 2 then
      if getChar buf tokStart = '-' ∧ getChar buf (tokStart + 1) = '>' then
        TokenKind.arrow
      else TokenKind.identifier
    else TokenKind.identifier
  (⟨kind, tokStart, e - tokStart⟩, e)

/-- `Lexer::LexDollarIdent`.  Matches `$[0-9a-zA-Z_$]*`; the kind is always
`dollarident`. -/
def lexDollarIdent (buf : List Char) (fuel pos : Nat) : Token × Nat :=
  let tokStart := pos - 1
  let e := scanWhile buf isIdentCont fuel pos
  (⟨TokenKind.dollarident, tokStart, e - tokStart⟩, e)

/-- `Lexer::LexDigit`.  Matches `[0-9]+`; the kind is `numeric_constant`. -/
def lexDigit (buf : List Char) (fuel pos : Nat) : Token × Nat :=
  let tokStart := pos - 1
  let e := scanWhile buf isDigitChar fuel pos
  (⟨TokenKind.numeric_constant, tokStart, e - tokStart⟩, e)

/-- `Lexer::SkipSlashSlashComment`.  Entered with the cursor on the second
`/`; eats characters (`*CurPtr++`) until a `'\n'` or `'\r'` is consumed.  A
nul read before `getBufferEnd()` is an embedded nul: warned about and eaten;
a nul read at `getBufferEnd()` means end of file inside the comment: the
cursor steps back to the sentinel (`--CurPtr`) and a
`"no newline at end of // comment"` warning is emitted at `CurPtr - 1`.
Returns the final cursor and the diagnostics, or `none` when the loop does
not return within `fuel` steps. -/
def skipComment (buf : List Char) : Nat → Nat → Option (Nat × List Diag)
  | 0, _ => none
  | fuel + 1, pos =>
    if getChar buf pos = '\n' ∨ getChar buf pos = '\r' then some (pos + 1, [])
    else if getChar buf pos = nulChar then
      if pos ≠ buf.length then
        (skipComment buf fuel (pos + 1)).map
          (fun r => (r.1, nulWarning pos :: r.2))
      else some (pos, [noNewlineWarning (pos - 1)])
    else skipComment buf fuel (pos + 1)

/-- The dispatch loop of `Lexer::Lex` (the `Restart:` label and the switch on
`*CurPtr++`).  Returns the formed token, the cursor after the call, and the
diagnostics emitted during the call; `none` models a computation that does
not return within `fuel` iterations of the loop. -/
def lexLoop (buf : List Char) : Nat → Nat → Option (Token × Nat × List Diag)
  | 0, _ => none
  | fuel + 1, pos =>
    if isWs (getChar buf pos) then lexLoop buf fuel (pos + 1)
    else if getChar buf pos = nulChar then
      if pos ≠ buf.length then
        (lexLoop buf fuel (pos + 1)).map
          (fun r => (r.1, r.2.1, nulWarning pos :: r.2.2))
      else some (⟨TokenKind.eof, pos, 1⟩, pos + 1, [])
    else if getChar buf pos = '(' then
      some (⟨TokenKind.l_paren, pos, 1⟩, pos + 1, [])
    else if getChar buf pos = ')' then
      some (⟨TokenKind.r_paren, pos, 1⟩, pos + 1, [])
    else if getChar buf pos = '\x7b' then
      some (⟨TokenKind.l_brace, pos, 1⟩, pos + 1, [])
    else if getChar buf pos = '\x7d' then
      some (⟨TokenKind.r_brace, pos, 1⟩, pos + 1, [])
    else if getChar buf pos = '[' then
      some (⟨TokenKind.l_square, pos, 1⟩, pos + 1, [])
    else if getChar buf pos = ']' then
      some (⟨TokenKind.r_square, pos, 1⟩, pos + 1, [])
    else if getChar buf pos = '.' then
      some (⟨TokenKind.period, pos, 1⟩, pos + 1, [])
    else if getChar buf pos = ',' then
      some (⟨TokenKind.comma, pos, 1⟩, pos + 1, [])
    else if getChar buf pos = ';' then
      some (⟨TokenKind.semi, pos, 1⟩, pos + 1, [])
    else if getChar buf pos = ':' then
      if getChar buf (pos + 1) ≠ ':' then
        some (⟨TokenKind.colon, pos, 1⟩, pos + 1, [])
      else some (⟨TokenKind.coloncolon, pos, 2⟩, pos + 2, [])
    else if getChar buf pos = '/' then
      if getChar buf (pos + 1) = '/' then
        (skipComment buf fuel (pos + 1)).bind fun r =>
          (lexLoop buf fuel r.1).map (fun q => (q.1, q.2.1, r.2 ++ q.2.2))
      else
        some ((lexPunctuationIdentifier buf fuel (pos + 1)).1,
          (lexPunctuationIdentifier buf fuel (pos + 1)).2, [])
    else if isOpDispatch (getChar buf pos) then
      some ((lexPunctuationIdentifier buf fuel (pos + 1)).1,
        (lexPunctuationIdentifier buf fuel (pos + 1)).2, [])
    else if isIdentStart (getChar buf pos) then
      some ((lexIdentifier buf fuel (pos + 1)).1,
        (lexIdentifier buf fuel (pos + 1)).2, [])
    else if getChar buf pos = '$' then
      some ((lexDollarIdent buf fuel (pos + 1)).1,
        (lexDollarIdent buf fuel (pos + 1)).2, [])
    else if isDigitChar (getChar buf pos) then
      some ((lexDigit buf fuel (pos + 1)).1,
        (lexDigit buf fuel (pos + 1)).2, [])
    else some (⟨TokenKind.unknown, pos, 1⟩, pos + 1, [invalidCharError pos])

/-- One call to `Lexer::Lex` starting at cursor `pos`.  Fuel
`buf.length + 2` is sufficient for every cursor within the range asserted at
the entry of `Lex` (`pos ≤ buf.length`), as proved below; beyond that range
the loop never returns. -/
def lex (buf : List Char) (pos : Nat) : Option (Token × Nat × List Diag) :=
  lexLoop buf (buf.length + 2) pos

/-- The caller protocol: call `lex` repeatedly until an `eof` token is
returned; counts the number of calls made (the `eof` call included). -/
def callsToEof (buf : List Char) : Nat → Nat → Option Nat
  | 0, _ => none
  | k + 1, pos =>
    (lex buf pos).bind fun r =>
      if r.1.kind = TokenKind.eof then some 1
      else (callsToEof buf k r.2.1).map (· + 1)

/-- Runs `lex` to the first `eof` token and records, for each call, the pair
(trivia text skipped before the token, text span of the returned token); for
the final `eof` call only the skipped trivia is recorded (the `eof` token is
not part of the buffer content). -/
def runPieces (buf : List Char) : Nat → Nat → Option (List (List Char × List Char))
  | 0, _ => none
  | k + 1, pos =>
    (lex buf pos).bind fun r =>
      if r.1.kind = TokenKind.eof then some [(bufSlice buf pos r.1.start, [])]
      else
        (runPieces buf k r.2.1).map
          (fun rest => (bufSlice buf pos r.1.start, tokenText buf r.1) :: rest)

/-! ## Basic facts about buffer reads and slices -/

theorem getChar_eq_nul_of_ge {buf : List Char} {pos : Nat} (h : buf.length ≤ pos) :
    getChar buf pos = nulChar := List.getD_eq_default _ _ h

theorem lt_of_getChar_ne_nul {buf : List Char} {pos : Nat}
    (h : getChar buf pos ≠ nulChar) : pos < buf.length := by
  by_contra hge
  exact h (getChar_eq_nul_of_ge (by omega))

theorem getChar_eq_getElem {buf : List Char} {pos : Nat} (h : pos < buf.length) :
    getChar buf pos = buf[pos] := List.getD_eq_getElem _ _ h

theorem bufSlice_length {l : List Char} {a b : Nat} (hab : a ≤ b) (hb : b ≤ l.length) :
    (bufSlice l a b).length = b - a := by
  simp only [bufSlice, List.length_take, List.length_drop]
  omega

theorem bufSlice_append {l : List Char} {a b c : Nat} (hab : a ≤ b) (hbc : b ≤ c) :
    bufSlice l a b ++ bufSlice l b c = bufSlice l a c := by
  unfold bufSlice
  rw [show List.drop b l = List.drop (b - a) (List.drop a l) by
    rw [List.drop_drop]; congr 1; omega]
  rw [← List.take_add]
  congr 1
  omega

theorem bufSlice_self (l : List Char) : bufSlice l 0 l.length = l := by
  simp [bufSlice]

theorem bufSlice_cons {l : List Char} {pos b : Nat} (h1 : pos < l.length) (h2 : pos < b) :
    bufSlice l pos b = getChar l pos :: bufSlice l (pos + 1) b := by
  unfold bufSlice getChar
  rw [List.drop_eq_getElem_cons h1, show b - pos = (b - (pos + 1)) + 1 by omega,
    List.take_succ_cons, List.getD_eq_getElem _ _ h1]

theorem bufSlice_nil {l : List Char} {a b : Nat} (h : b ≤ a) : bufSlice l a b = [] := by
  simp [bufSlice, Nat.sub_eq_zero_of_le h]

/-! ## Character-class exclusion lemmas

The dispatch switch of `Lexer::Lex` has pairwise-disjoint case labels; these
lemmas record the disjointness needed to resolve the branch conditions. -/

theorem opDispatch_excl {c : Char} (h : isOpDispatch c) :
    ¬ isWs c ∧ c ≠ nulChar ∧ c ≠ '(' ∧ c ≠ ')' ∧ c ≠ '\x7b' ∧ c ≠ '\x7d' ∧
    c ≠ '[' ∧ c ≠ ']' ∧ c ≠ '.' ∧ c ≠ ',' ∧ c ≠ ';' ∧ c ≠ ':' ∧ c ≠ '/' := by
  rcases h with rfl | rfl | rfl | rfl | rfl | rfl | rfl | rfl | rfl | rfl | rfl <;> decide

theorem identStart_excl {c : Char} (h : isIdentStart c) :
    ¬ isWs c ∧ c ≠ nulChar ∧ c ≠ '(' ∧ c ≠ ')' ∧ c ≠ '\x7b' ∧ c ≠ '\x7d' ∧
    c ≠ '[' ∧ c ≠ ']' ∧ c ≠ '.' ∧ c ≠ ',' ∧ c ≠ ';' ∧ c ≠ ':' ∧ c ≠ '/' ∧
    ¬ isOpDispatch c := by
  refine ⟨fun hw => ?_, fun hw => ?_, fun hw => ?_, fun hw => ?_, fun hw => ?_,
    fun hw => ?_, fun hw => ?_, fun hw => ?_, fun hw => ?_, fun hw => ?_,
    fun hw => ?_, fun hw => ?_, fun hw => ?_, fun hw => ?_⟩ <;>
  first
    | (rcases hw with rfl | rfl | rfl | rfl <;> exact absurd h (by decide))
    | (subst hw; exact absurd h (by decide))
    | (rcases hw with rfl | rfl | rfl | rfl | rfl | rfl | rfl | rfl | rfl | rfl | rfl <;>
        exact absurd h (by decide))

theorem digit_excl {c : Char} (h : isDigitChar c) :
    ¬ isWs c ∧ c ≠ nulChar ∧ c ≠ '(' ∧ c ≠ ')' ∧ c ≠ '\x7b' ∧ c ≠ '\x7d' ∧
    c ≠ '[' ∧ c ≠ ']' ∧ c ≠ '.' ∧ c ≠ ',' ∧ c ≠ ';' ∧ c ≠ ':' ∧ c ≠ '/' ∧
    ¬ isOpDispatch c ∧ ¬ isIdentStart c ∧ c ≠ '$' := by
  refine ⟨fun hw => ?_, fun hw => ?_, fun hw => ?_, fun hw => ?_, fun hw => ?_,
    fun hw => ?_, fun hw => ?_, fun hw => ?_, fun hw => ?_, fun hw => ?_,
    fun hw => ?_, fun hw => ?_, fun hw => ?_, fun hw => ?_, fun hw => ?_,
    fun hw => ?_⟩ <;>
  first
    | (rcases hw with rfl | rfl | rfl | rfl <;> exact absurd h (by decide))
    | (subst hw; exact absurd h (by decide))
    | (rcases hw with rfl | rfl | rfl | rfl | rfl | rfl | rfl | rfl | rfl | rfl | rfl <;>
        exact absurd h (by decide))
    | (rcases hw with (⟨ha, _⟩ | ⟨ha, _⟩) | rfl
       · exact absurd (le_trans ha h.2) (by decide)
       · exact absurd (le_trans ha h.2) (by decide)
       · exact absurd h (by decide))

/-! ## One-step reduction lemmas for the dispatch loop -/

theorem step_ws (buf : List Char) (f pos : Nat) (h : isWs (getChar buf pos)) :
    lexLoop buf (f + 1) pos = lexLoop buf f (pos + 1) := by
  simp only [lexLoop]
  rw [if_pos h]

theorem step_eof (buf : List Char) (f pos : Nat) (h : pos = buf.length) :
    lexLoop buf (f + 1) pos = some (⟨TokenKind.eof, pos, 1⟩, pos + 1, []) := by
  have hc : getChar buf pos = nulChar := getChar_eq_nul_of_ge (le_of_eq h.symm)
  simp only [lexLoop]
  rw [hc, if_neg (by decide : ¬ isWs nulChar), if_pos rfl, if_neg (not_not_intro h)]

theorem step_nulmid (buf : List Char) (f pos : Nat) (hc : getChar buf pos = nulChar)
    (h : pos ≠ buf.length) :
    lexLoop buf (f + 1) pos =
      (lexLoop buf f (pos + 1)).map (fun r => (r.1, r.2.1, nulWarning pos :: r.2.2)) := by
  simp only [lexLoop]
  rw [hc, if_neg (by decide : ¬ isWs nulChar), if_pos rfl, if_pos h]

theorem step_lparen (buf : List Char) (f pos : Nat) (hc : getChar buf pos = '(') :
    lexLoop buf (f + 1) pos = some (⟨TokenKind.l_paren, pos, 1⟩, pos + 1, []) := by
  simp only [lexLoop]
  rw [hc, if_neg (by decide : ¬ isWs '('), if_neg (by decide : ('(' : Char) ≠ nulChar),
    if_pos rfl]

theorem step_rparen (buf : List Char) (f pos : Nat) (hc : getChar buf pos = ')') :
    lexLoop buf (f + 1) pos = some (⟨TokenKind.r_paren, pos, 1⟩, pos + 1, []) := by
  simp only [lexLoop]
  rw [hc, if_neg (by decide : ¬ isWs ')'), if_neg (by decide : (')' : Char) ≠ nulChar),
    if_neg (by decide : (')' : Char) ≠ '('), if_pos rfl]

theorem step_lbrace (buf : List Char) (f pos : Nat) (hc : getChar buf pos = '\x7b') :
    lexLoop buf (f + 1) pos = some (⟨TokenKind.l_brace, pos, 1⟩, pos + 1, []) := by
  simp only [lexLoop]
  rw [hc, if_neg (by decide : ¬ isWs '\x7b'), if_neg (by decide : ('\x7b' : Char) ≠ nulChar),
    if_neg (by decide : ('\x7b' : Char) ≠ '('), if_neg (by decide : ('\x7b' : Char) ≠ ')'),
    if_pos rfl]

theorem step_rbrace (buf : List Char) (f pos : Nat) (hc : getChar buf pos = '\x7d') :
    lexLoop buf (f + 1) pos = some (⟨TokenKind.r_brace, pos, 1⟩, pos + 1, []) := by
  simp only [lexLoop]
  rw [hc, if_neg (by decide : ¬ isWs '\x7d'), if_neg (by decide : ('\x7d' : Char) ≠ nulChar),
    if_neg (by decide : ('\x7d' : Char) ≠ '('), if_neg (by decide : ('\x7d' : Char) ≠ ')'),
    if_neg (by decide : ('\x7d' : Char) ≠ '\x7b'), if_pos rfl]

theorem step_lsquare (buf : List Char) (f pos : Nat) (hc : getChar buf pos = '[') :
    lexLoop buf (f + 1) pos = some (⟨TokenKind.l_square, pos, 1⟩, pos + 1, []) := by
  simp only [lexLoop]
  rw [hc, if_neg (by decide : ¬ isWs '['), if_neg (by decide : ('[' : Char) ≠ nulChar),
    if_neg (by decide : ('[' : Char) ≠ '('), if_neg (by decide : ('[' : Char) ≠ ')'),
    if_neg (by decide : ('[' : Char) ≠ '\x7b'), if_neg (by decide : ('[' : Char) ≠ '\x7d'),
    if_pos rfl]

theorem step_rsquare (buf : List Char) (f pos : Nat) (hc : getChar buf pos = ']') :
    lexLoop buf (f + 1) pos = some (⟨TokenKind.r_square, pos, 1⟩, pos + 1, []) := by
  simp only [lexLoop]
  rw [hc, if_neg (by decide : ¬ isWs ']'), if_neg (by decide : (']' : Char) ≠ nulChar),
    if_neg (by decide : (']' : Char) ≠ '('), if_neg (by decide : (']' : Char) ≠ ')'),
    if_neg (by decide : (']' : Char) ≠ '\x7b'), if_neg (by decide : (']' : Char) ≠ '\x7d'),
    if_neg (by decide : (']' : Char) ≠ '['), if_pos rfl]

theorem step_period (buf : List Char) (f pos : Nat) (hc : getChar buf pos = '.') :
    lexLoop buf (f + 1) pos = some (⟨TokenKind.period, pos, 1⟩, pos + 1, []) := by
  simp only [lexLoop]
  rw [hc, if_neg (by decide : ¬ isWs '.'), if_neg (by decide : ('.' : Char) ≠ nulChar),
    if_neg (by decide : ('.' : Char) ≠ '('), if_neg (by decide : ('.' : Char) ≠ ')'),
    if_neg (by decide : ('.' : Char) ≠ '\x7b'), if_neg (by decide : ('.' : Char) ≠ '\x7d'),
    if_neg (by decide : ('.' : Char) ≠ '['), if_neg (by decide : ('.' : Char) ≠ ']'),
    if_pos rfl]

theorem step_comma (buf : List Char) (f pos : Nat) (hc : getChar buf pos = ',') :
    lexLoop buf (f + 1) pos = some (⟨TokenKind.comma, pos, 1⟩, pos + 1, []) := by
  simp only [lexLoop]
  rw [hc, if_neg (by decide : ¬ isWs ','), if_neg (by decide : (',' : Char) ≠ nulChar),
    if_neg (by decide : (',' : Char) ≠ '('), if_neg (by decide : (',' : Char) ≠ ')'),
    if_neg (by decide : (',' : Char) ≠ '\x7b'), if_neg (by decide : (',' : Char) ≠ '\x7d'),
    if_neg (by decide : (',' : Char) ≠ '['), if_neg (by decide : (',' : Char) ≠ ']'),
    if_neg (by decide : (',' : Char) ≠ '.'), if_pos rfl]

theorem step_semi (buf : List Char) (f pos : Nat) (hc : getChar buf pos = ';') :
    lexLoop buf (f + 1) pos = some (⟨TokenKind.semi, pos, 1⟩, pos + 1, []) := by
  simp only [lexLoop]
  rw [hc, if_neg (by decide : ¬ isWs ';'), if_neg (by decide : (';' : Char) ≠ nulChar),
    if_neg (by decide : (';' : Char) ≠ '('), if_neg (by decide : (';' : Char) ≠ ')'),
    if_neg (by decide : (';' : Char) ≠ '\x7b'), if_neg (by decide : (';' : Char) ≠ '\x7d'),
    if_neg (by decide : (';' : Char) ≠ '['), if_neg (by decide : (';' : Char) ≠ ']'),
    if_neg (by decide : (';' : Char) ≠ '.'), if_neg (by decide : (';' : Char) ≠ ','),
    if_pos rfl]

theorem step_colon_single (buf : List Char) (f pos : Nat) (hc : getChar buf pos = ':')
    (h2 : getChar buf (pos + 1) ≠ ':') :
    lexLoop buf (f + 1) pos = some (⟨TokenKind.colon, pos, 1⟩, pos + 1, []) := by
  simp only [lexLoop]
  rw [hc, if_neg (by decide : ¬ isWs ':'), if_neg (by decide : (':' : Char) ≠ nulChar),
    if_neg (by decide : (':' : Char) ≠ '('), if_neg (by decide : (':' : Char) ≠ ')'),
    if_neg (by decide : (':' : Char) ≠ '\x7b'), if_neg (by decide : (':' : Char) ≠ '\x7d'),
    if_neg (by decide : (':' : Char) ≠ '['), if_neg (by decide : (':' : Char) ≠ ']'),
    if_neg (by decide : (':' : Char) ≠ '.'), if_neg (by decide : (':' : Char) ≠ ','),
    if_neg (by decide : (':' : Char) ≠ ';'), if_pos rfl, if_pos h2]

theorem step_colon_double (buf : List Char) (f pos : Nat) (hc : getChar buf pos = ':')
    (h2 : getChar buf (pos + 1) = ':') :
    lexLoop buf (f + 1) pos = some (⟨TokenKind.coloncolon, pos, 2⟩, pos + 2, []) := by
  simp only [lexLoop]
  rw [hc, if_neg (by decide : ¬ isWs ':'), if_neg (by decide : (':' : Char) ≠ nulChar),
    if_neg (by decide : (':' : Char) ≠ '('), if_neg (by decide : (':' : Char) ≠ ')'),
    if_neg (by decide : (':' : Char) ≠ '\x7b'), if_neg (by decide : (':' : Char) ≠ '\x7d'),
    if_neg (by decide : (':' : Char) ≠ '['), if_neg (by decide : (':' : Char) ≠ ']'),
    if_neg (by decide : (':' : Char) ≠ '.'), if_neg (by decide : (':' : Char) ≠ ','),
    if_neg (by decide : (':' : Char) ≠ ';'), if_pos rfl, if_neg (not_not_intro h2)]

theorem step_comment (buf : List Char) (f pos : Nat) (hc : getChar buf pos = '/')
    (h2 : getChar buf (pos + 1) = '/') (p2 : Nat) (ds : List Diag)
    (hskip : skipComment buf f (pos + 1) = some (p2, ds)) :
    lexLoop buf (f + 1) pos =
      (lexLoop buf f p2).map (fun q => (q.1, q.2.1, ds ++ q.2.2)) := by
  simp only [lexLoop]
  rw [hc, if_neg (by decide : ¬ isWs '/'), if_neg (by decide : ('/' : Char) ≠ nulChar),
    if_neg (by decide : ('/' : Char) ≠ '('), if_neg (by decide : ('/' : Char) ≠ ')'),
    if_neg (by decide : ('/' : Char) ≠ '\x7b'), if_neg (by decide : ('/' : Char) ≠ '\x7d'),
    if_neg (by decide : ('/' : Char) ≠ '['), if_neg (by decide : ('/' : Char) ≠ ']'),
    if_neg (by decide : ('/' : Char) ≠ '.'), if_neg (by decide : ('/' : Char) ≠ ','),
    if_neg (by decide : ('/' : Char) ≠ ';'), if_neg (by decide : ('/' : Char) ≠ ':'),
    if_pos rfl, if_pos h2, hskip]
  rfl

theorem step_slash_punct (buf : List Char) (f pos : Nat) (hc : getChar buf pos = '/')
    (h2 : getChar buf (pos + 1) ≠ '/') :
    lexLoop buf (f + 1) pos = some ((lexPunctuationIdentifier buf f (pos + 1)).1,
      (lexPunctuationIdentifier buf f (pos + 1)).2, []) := by
  simp only [lexLoop]
  rw [hc, if_neg (by decide : ¬ isWs '/'), if_neg (by decide : ('/' : Char) ≠ nulChar),
    if_neg (by decide : ('/' : Char) ≠ '('), if_neg (by decide : ('/' : Char) ≠ ')'),
    if_neg (by decide : ('/' : Char) ≠ '\x7b'), if_neg (by decide : ('/' : Char) ≠ '\x7d'),
    if_neg (by decide : ('/' : Char) ≠ '['), if_neg (by decide : ('/' : Char) ≠ ']'),
    if_neg (by decide : ('/' : Char) ≠ '.'), if_neg (by decide : ('/' : Char) ≠ ','),
    if_neg (by decide : ('/' : Char) ≠ ';'), if_neg (by decide : ('/' : Char) ≠ ':'),
    if_pos rfl, if_neg h2]

theorem step_op (buf : List Char) (f pos : Nat) (h : isOpDispatch (getChar buf pos)) :
    lexLoop buf (f + 1) pos = some ((lexPunctuationIdentifier buf f (pos + 1)).1,
      (lexPunctuationIdentifier buf f (pos + 1)).2, []) := by
  obtain ⟨e1, e2, e3, e4, e5, e6, e7, e8, e9, e10, e11, e12, e13⟩ := opDispatch_excl h
  simp only [lexLoop]
  rw [if_neg e1, if_neg e2, if_neg e3, if_neg e4, if_neg e5, if_neg e6, if_neg e7,
    if_neg e8, if_neg e9, if_neg e10, if_neg e11, if_neg e12, if_neg e13, if_pos h]

theorem step_ident (buf : List Char) (f pos : Nat) (h : isIdentStart (getChar buf pos)) :
    lexLoop buf (f + 1) pos = some ((lexIdentifier buf f (pos + 1)).1,
      (lexIdentifier buf f (pos + 1)).2, []) := by
  obtain ⟨e1, e2, e3, e4, e5, e6, e7, e8, e9, e10, e11, e12, e13, e14⟩ := identStart_excl h
  simp only [lexLoop]
  rw [if_neg e1, if_neg e2, if_neg e3, if_neg e4, if_neg e5, if_neg e6, if_neg e7,
    if_neg e8, if_neg e9, if_neg e10, if_neg e11, if_neg e12, if_neg e13, if_neg e14,
    if_pos h]

theorem step_dollar (buf : List Char) (f pos : Nat) (hc : getChar buf pos = '$') :
    lexLoop buf (f + 1) pos = some ((lexDollarIdent buf f (pos + 1)).1,
      (lexDollarIdent buf f (pos + 1)).2, []) := by
  simp only [lexLoop]
  rw [hc, if_neg (by decide : ¬ isWs '$'), if_neg (by decide : ('$' : Char) ≠ nulChar),
    if_neg (by decide : ('$' : Char) ≠ '('), if_neg (by decide : ('$' : Char) ≠ ')'),
    if_neg (by decide : ('$' : Char) ≠ '\x7b'), if_neg (by decide : ('$' : Char) ≠ '\x7d'),
    if_neg (by decide : ('$' : Char) ≠ '['), if_neg (by decide : ('$' : Char) ≠ ']'),
    if_neg (by decide : ('$' : Char) ≠ '.'), if_neg (by decide : ('$' : Char) ≠ ','),
    if_neg (by decide : ('$' : Char) ≠ ';'), if_neg (by decide : ('$' : Char) ≠ ':'),
    if_neg (by decide : ('$' : Char) ≠ '/'), if_neg (by decide : ¬ isOpDispatch '$'),
    if_neg (by decide : ¬ isIdentStart '$'), if_pos rfl]

theorem step_digit (buf : List Char) (f pos : Nat) (h : isDigitChar (getChar buf pos)) :
    lexLoop buf (f + 1) pos = some ((lexDigit buf f (pos + 1)).1,
      (lexDigit buf f (pos + 1)).2, []) := by
  obtain ⟨e1, e2, e3, e4, e5, e6, e7, e8, e9, e10, e11, e12, e13, e14, e15, e16⟩ :=
    digit_excl h
  simp only [lexLoop]
  rw [if_neg e1, if_neg e2, if_neg e3, if_neg e4, if_neg e5, if_neg e6, if_neg e7,
    if_neg e8, if_neg e9, if_neg e10, if_neg e11, if_neg e12, if_neg e13, if_neg e14,
    if_neg e15, if_neg e16, if_pos h]

theorem step_unknown (buf : List Char) (f pos : Nat)
    (h : ¬ isHandled (getChar buf pos)) :
    lexLoop buf (f + 1) pos =
      some (⟨TokenKind.unknown, pos, 1⟩, pos + 1, [invalidCharError pos]) := by
  simp only [isHandled, not_or] at h
  obtain ⟨e1, e2, e3, e4, e5, e6, e7, e8, e9, e10, e11, e12, e13, e14, e15, e16, e17⟩ := h
  simp only [lexLoop]
  rw [if_neg e1, if_neg e2, if_neg e3, if_neg e4, if_neg e5, if_neg e6, if_neg e7,
    if_neg e8, if_neg e9, if_neg e10, if_neg e11, if_neg e12, if_neg e13, if_neg e14,
    if_neg e15, if_neg e16, if_neg e17]

/-! ## The greedy scan loop: termination, value, and maximality -/

theorem scanWhile_spec (buf : List Char) (p : Char → Prop) [DecidablePred p]
    (hp : ¬ p nulChar) :
    ∀ k start, start ≤ buf.length → buf.length - start ≤ k →
    ∃ e, start ≤ e ∧ e ≤ buf.length ∧
      (∀ f, buf.length - start ≤ f → scanWhile buf p f start = e) ∧
      (∀ q, start ≤ q → q < e → p (getChar buf q)) ∧ ¬ p (getChar buf e) := by
  intro k
  induction k with
  | zero =>
    intro start h1 h2
    have hse : start = buf.length := by omega
    have hc : getChar buf start = nulChar := by
      rw [hse]; exact getChar_eq_nul_of_ge (le_refl _)
    refine ⟨start, le_refl _, h1, fun f _ => ?_, fun q hq1 hq2 => by omega, ?_⟩
    · cases f with
      | zero => rfl
      | succ f =>
        simp only [scanWhile]
        rw [hc, if_neg hp]
    · rw [hc]; exact hp
  | succ k ih =>
    intro start h1 h2
    by_cases hs : p (getChar buf start)
    · have hlt : start < buf.length := by
        by_contra hge
        rw [getChar_eq_nul_of_ge (by omega)] at hs
        exact hp hs
      obtain ⟨e, he1, he2, he3, he4, he5⟩ := ih (start + 1) (by omega) (by omega)
      refine ⟨e, by omega, he2, fun f hf => ?_, fun q hq1 hq2 => ?_, he5⟩
      · cases f with
        | zero => omega
        | succ f =>
          simp only [scanWhile]
          rw [if_pos hs]
          exact he3 f (by omega)
      · rcases Nat.eq_or_lt_of_le hq1 with heq | hlt2
        · rw [← heq]; exact hs
        · exact he4 q (by omega) hq2
    · refine ⟨start, le_refl _, h1, fun f _ => ?_, fun q hq1 hq2 => by omega, hs⟩
      cases f with
      | zero => rfl
      | succ f =>
        simp only [scanWhile]
        rw [if_neg hs]

/-! ## The sub-scanners -/

theorem keywordKind_ne_eof (s : List Char) : keywordKind s ≠ TokenKind.eof := by
  unfold keywordKind
  split_ifs <;> decide

theorem keywordKind_cases (s : List Char) :
    (keywordKind s = TokenKind.kw_func ↔ s = "func".toList) ∧
    (keywordKind s = TokenKind.kw_var ↔ s = "var".toList) ∧
    (keywordKind s = TokenKind.kw_struct ↔ s = "struct".toList) ∧
    (keywordKind s = TokenKind.kw_typealias ↔ s = "typealias".toList) ∧
    (keywordKind s = TokenKind.kw_oneof ↔ s = "oneof".toList) ∧
    (keywordKind s = TokenKind.kw___builtin_int32_type ↔
      s = "__builtin_int32_type".toList) ∧
    (keywordKind s = TokenKind.identifier ↔
      (s ≠ "func".toList ∧ s ≠ "var".toList ∧ s ≠ "struct".toList ∧
       s ≠ "typealias".toList ∧ s ≠ "oneof".toList ∧
       s ≠ "__builtin_int32_type".toList)) := by
  unfold keywordKind
  split_ifs with h1 h2 h3 h4 h5 h6
  · subst h1; decide
  · subst h2; decide
  · subst h3; decide
  · subst h4; decide
  · subst h5; decide
  · subst h6; decide
  · exact ⟨iff_of_false (by decide) h5, iff_of_false (by decide) h4,
      iff_of_false (by decide) h3, iff_of_false (by decide) h6,
      iff_of_false (by decide) h2, iff_of_false (by decide) h1,
      iff_of_true rfl ⟨h5, h4, h3, h6, h2, h1⟩⟩

theorem lexIdentifier_spec (buf : List Char) (pos : Nat) (h : pos + 1 ≤ buf.length) :
    ∃ e, pos + 1 ≤ e ∧ e ≤ buf.length ∧
      (∀ f, buf.length - (pos + 1) ≤ f →
        lexIdentifier buf f (pos + 1) =
          (⟨keywordKind (bufSlice buf pos e), pos, e - pos⟩, e)) ∧
      (∀ q, pos + 1 ≤ q → q < e → isIdentCont (getChar buf q)) ∧
      ¬ isIdentCont (getChar buf e) := by
  obtain ⟨e, he1, he2, he3, he4, he5⟩ :=
    scanWhile_spec buf isIdentCont (by decide) buf.length (pos + 1) h (by omega)
  refine ⟨e, he1, he2, fun f hf => ?_, he4, he5⟩
  simp only [lexIdentifier]
  rw [he3 f hf]
  simp

theorem punctKind_cases (n : Nat) (c0 c1 : Char) :
    ((if n = 1 then
        if c0 = '=' then TokenKind.equal else TokenKind.identifier
      else if n = 2 then
        if c0 = '-' ∧ c1 = '>' then TokenKind.arrow else TokenKind.identifier
      else TokenKind.identifier) = TokenKind.equal ↔ n = 1 ∧ c0 = '=') ∧
    ((if n = 1 then
        if c0 = '=' then TokenKind.equal else TokenKind.identifier
      else if n = 2 then
        if c0 = '-' ∧ c1 = '>' then TokenKind.arrow else TokenKind.identifier
      else TokenKind.identifier) = TokenKind.arrow ↔ n = 2 ∧ c0 = '-' ∧ c1 = '>') ∧
    ((if n = 1 then
        if c0 = '=' then TokenKind.equal else TokenKind.identifier
      else if n = 2 then
        if c0 = '-' ∧ c1 = '>' then TokenKind.arrow else TokenKind.identifier
      else TokenKind.identifier) = TokenKind.equal ∨
     (if n = 1 then
        if c0 = '=' then TokenKind.equal else TokenKind.identifier
      else if n = 2 then
        if c0 = '-' ∧ c1 = '>' then TokenKind.arrow else TokenKind.identifier
      else TokenKind.identifier) = TokenKind.arrow ∨
     (if n = 1 then
        if c0 = '=' then TokenKind.equal else TokenKind.identifier
      else if n = 2 then
        if c0 = '-' ∧ c1 = '>' then TokenKind.arrow else TokenKind.identifier
      else TokenKind.identifier) = TokenKind.identifier) := by
  split_ifs with h1 h2 h3 h4 <;> simp_all

theorem lexPunct_spec (buf : List Char) (pos : Nat) (h : pos + 1 ≤ buf.length) :
    ∃ e kind, pos + 1 ≤ e ∧ e ≤ buf.length ∧
      (∀ f, buf.length - (pos + 1) ≤ f →
        lexPunctuationIdentifier buf f (pos + 1) = (⟨kind, pos, e - pos⟩, e)) ∧
      (∀ q, pos + 1 ≤ q → q < e → isPunctChar (getChar buf q)) ∧
      ¬ isPunctChar (getChar buf e) ∧
      (kind = TokenKind.equal ↔ e - pos = 1 ∧ getChar buf pos = '=') ∧
      (kind = TokenKind.arrow ↔
        e - pos = 2 ∧ getChar buf pos = '-' ∧ getChar buf (pos + 1) = '>') ∧
      (kind = TokenKind.equal ∨ kind = TokenKind.arrow ∨
        kind = TokenKind.identifier) := by
  obtain ⟨e, he1, he2, he3, he4, he5⟩ :=
    scanWhile_spec buf isPunctChar (by decide) buf.length (pos + 1) h (by omega)
  obtain ⟨hk1, hk2, hk3⟩ :=
    punctKind_cases (e - pos) (getChar buf pos) (getChar buf (pos + 1))
  refine ⟨e, _, he1, he2, fun f hf => ?_, he4, he5, hk1, hk2, hk3⟩
  simp only [lexPunctuationIdentifier]
  rw [he3 f hf]
  simp

theorem lexDollarIdent_spec (buf : List Char) (pos : Nat) (h : pos + 1 ≤ buf.length) :
    ∃ e, pos + 1 ≤ e ∧ e ≤ buf.length ∧
      (∀ f, buf.length - (pos + 1) ≤ f →
        lexDollarIdent buf f (pos + 1) =
          (⟨TokenKind.dollarident, pos, e - pos⟩, e)) := by
  obtain ⟨e, he1, he2, he3, _, _⟩ :=
    scanWhile_spec buf isIdentCont (by decide) buf.length (pos + 1) h (by omega)
  refine ⟨e, he1, he2, fun f hf => ?_⟩
  simp only [lexDollarIdent]
  rw [he3 f hf]
  simp

theorem lexDigit_spec (buf : List Char) (pos : Nat) (h : pos + 1 ≤ buf.length) :
    ∃ e, pos + 1 ≤ e ∧ e ≤ buf.length ∧
      (∀ f, buf.length - (pos + 1) ≤ f →
        lexDigit buf f (pos + 1) =
          (⟨TokenKind.numeric_constant, pos, e - pos⟩, e)) := by
  obtain ⟨e, he1, he2, he3, _, _⟩ :=
    scanWhile_spec buf isDigitChar (by decide) buf.length (pos + 1) h (by omega)
  refine ⟨e, he1, he2, fun f hf => ?_⟩
  simp only [lexDigit]
  rw [he3 f hf]
  simp

/-! ## The comment skipper -/

theorem skip_step_nul (buf : List Char) (f pos : Nat)
    (hc : getChar buf pos = nulChar) (h : pos ≠ buf.length) :
    skipComment buf (f + 1) pos =
      (skipComment buf f (pos + 1)).map (fun r => (r.1, nulWarning pos :: r.2)) := by
  simp only [skipComment]
  rw [hc, if_neg (by decide : ¬ (nulChar = '\n' ∨ nulChar = '\r')), if_pos rfl,
    if_pos h]

theorem skipComment_spec (buf : List Char) :
    ∀ k pos, pos ≤ buf.length → buf.length - pos ≤ k →
    ∃ p2 ds,
      (∀ f, buf.length - pos < f → skipComment buf f pos = some (p2, ds)) ∧
      pos ≤ p2 ∧ p2 ≤ buf.length ∧ (pos < buf.length → pos < p2) := by
  intro k
  induction k with
  | zero =>
    intro pos h1 h2
    have hse : pos = buf.length := by omega
    have hc : getChar buf pos = nulChar := by
      rw [hse]; exact getChar_eq_nul_of_ge (le_refl _)
    refine ⟨pos, [noNewlineWarning (pos - 1)], fun f hf => ?_, le_refl _, h1,
      fun hlt => by omega⟩
    cases f with
    | zero => omega
    | succ f =>
      simp only [skipComment]
      rw [hc, if_neg (by decide : ¬ (nulChar = '\n' ∨ nulChar = '\r')), if_pos rfl,
        if_neg (not_not_intro hse)]
  | succ k ih =>
    intro pos h1 h2
    by_cases hse : pos = buf.length
    · have hc : getChar buf pos = nulChar := by
        rw [hse]; exact getChar_eq_nul_of_ge (le_refl _)
      refine ⟨pos, [noNewlineWarning (pos - 1)], fun f hf => ?_, le_refl _, h1,
        fun hlt => by omega⟩
      cases f with
      | zero => omega
      | succ f =>
        simp only [skipComment]
        rw [hc, if_neg (by decide : ¬ (nulChar = '\n' ∨ nulChar = '\r')), if_pos rfl,
          if_neg (not_not_intro hse)]
    · have hlt : pos < buf.length := by omega
      by_cases hnl : getChar buf pos = '\n' ∨ getChar buf pos = '\r'
      · refine ⟨pos + 1, [], fun f hf => ?_, by omega, by omega, fun _ => by omega⟩
        cases f with
        | zero => omega
        | succ f =>
          simp only [skipComment]
          rw [if_pos hnl]
      · by_cases hnc : getChar buf pos = nulChar
        · obtain ⟨p2, ds, hf, hp1, hp2, _⟩ := ih (pos + 1) (by omega) (by omega)
          refine ⟨p2, nulWarning pos :: ds, fun f hff => ?_, by omega, hp2,
            fun _ => by omega⟩
          cases f with
          | zero => omega
          | succ f =>
            rw [skip_step_nul buf f pos hnc hse, hf f (by omega)]
            rfl
        · obtain ⟨p2, ds, hf, hp1, hp2, _⟩ := ih (pos + 1) (by omega) (by omega)
          refine ⟨p2, ds, fun f hff => ?_, by omega, hp2, fun _ => by omega⟩
          cases f with
          | zero => omega
          | succ f =>
            simp only [skipComment]
            rw [if_neg hnl, if_neg hnc]
            exact hf f (by omega)

theorem skipComment_noNewline (buf : List Char) :
    ∀ k pos, pos ≤ buf.length → buf.length - pos ≤ k →
    (∀ q, pos ≤ q → q < buf.length →
      getChar buf q ≠ '\n' ∧ getChar buf q ≠ '\r' ∧ getChar buf q ≠ nulChar) →
    ∀ f, buf.length - pos < f →
      skipComment buf f pos = some (buf.length, [noNewlineWarning (buf.length - 1)]) := by
  intro k
  induction k with
  | zero =>
    intro pos h1 h2 _ f hf
    have hse : pos = buf.length := by omega
    have hc : getChar buf pos = nulChar := by
      rw [hse]; exact getChar_eq_nul_of_ge (le_refl _)
    cases f with
    | zero => omega
    | succ f =>
      simp only [skipComment]
      rw [hc, if_neg (by decide : ¬ (nulChar = '\n' ∨ nulChar = '\r')), if_pos rfl,
        if_neg (not_not_intro hse), hse]
  | succ k ih =>
    intro pos h1 h2 hq f hf
    by_cases hse : pos = buf.length
    · have hc : getChar buf pos = nulChar := by
        rw [hse]; exact getChar_eq_nul_of_ge (le_refl _)
      cases f with
      | zero => omega
      | succ f =>
        simp only [skipComment]
        rw [hc, if_neg (by decide : ¬ (nulChar = '\n' ∨ nulChar = '\r')), if_pos rfl,
          if_neg (not_not_intro hse), hse]
    · have hlt : pos < buf.length := by omega
      obtain ⟨hn1, hn2, hn3⟩ := hq pos (le_refl _) hlt
      cases f with
      | zero => omega
      | succ f =>
        simp only [skipComment]
        rw [if_neg (by rintro (h | h) <;> [exact hn1 h; exact hn2 h]), if_neg hn3]
        exact ih (pos + 1) (by omega) (by omega)
          (fun q hq1 hq2 => hq q (by omega) hq2) f (by omega)

/-! ## The dispatch loop: totality in range, progress, and token shape -/

theorem lexLoop_eof_case (buf : List Char) (pos : Nat) (hL : pos = buf.length) :
    ∃ tok pos' ds,
      (∀ f, buf.length + 1 - pos < f → lexLoop buf f pos = some (tok, pos', ds)) ∧
      pos < pos' ∧ pos ≤ tok.start ∧ tok.start + tok.length = pos' ∧
      1 ≤ tok.length ∧
      (tok.kind = TokenKind.eof → tok.start = buf.length ∧ tok.length = 1) ∧
      (tok.kind ≠ TokenKind.eof → pos' ≤ buf.length) := by
  refine ⟨⟨TokenKind.eof, pos, 1⟩, pos + 1, [], fun f hf => ?_, by omega, le_refl _,
    rfl, le_refl _, fun _ => ⟨hL, rfl⟩, fun hne => absurd rfl hne⟩
  cases f with
  | zero => omega
  | succ f => exact step_eof buf f pos hL

theorem lexLoop_spec (buf : List Char) :
    ∀ k pos, pos ≤ buf.length → buf.length - pos ≤ k →
    ∃ tok pos' ds,
      (∀ f, buf.length + 1 - pos < f → lexLoop buf f pos = some (tok, pos', ds)) ∧
      pos < pos' ∧ pos ≤ tok.start ∧ tok.start + tok.length = pos' ∧
      1 ≤ tok.length ∧
      (tok.kind = TokenKind.eof → tok.start = buf.length ∧ tok.length = 1) ∧
      (tok.kind ≠ TokenKind.eof → pos' ≤ buf.length) := by
  intro k
  induction k with
  | zero =>
    intro pos h1 h2
    exact lexLoop_eof_case buf pos (by omega)
  | succ k ih =>
    intro pos h1 h2
    by_cases hL : pos = buf.length
    · exact lexLoop_eof_case buf pos hL
    have hlt : pos < buf.length := by omega
    by_cases hws : isWs (getChar buf pos)
    · obtain ⟨tok, pos', ds, hf, hp1, hp2, hp3, hp4, hp5, hp6⟩ :=
        ih (pos + 1) (by omega) (by omega)
      refine ⟨tok, pos', ds, fun f hff => ?_, by omega, by omega, hp3, hp4, hp5, hp6⟩
      cases f with
      | zero => omega
      | succ f =>
        rw [step_ws buf f pos hws]
        exact hf f (by omega)
    by_cases hnc : getChar buf pos = nulChar
    · obtain ⟨tok, pos', ds, hf, hp1, hp2, hp3, hp4, hp5, hp6⟩ :=
        ih (pos + 1) (by omega) (by omega)
      refine ⟨tok, pos', nulWarning pos :: ds, fun f hff => ?_, by omega, by omega,
        hp3, hp4, hp5, hp6⟩
      cases f with
      | zero => omega
      | succ f =>
        rw [step_nulmid buf f pos hnc hL, hf f (by omega)]
        rfl
    by_cases hc3 : getChar buf pos = '('
    · refine ⟨⟨TokenKind.l_paren, pos, 1⟩, pos + 1, [], fun f hff => ?_, by omega,
        le_refl _, rfl, le_refl _, fun he => by simp at he, fun _ => by omega⟩
      cases f with
      | zero => omega
      | succ f => exact step_lparen buf f pos hc3
    by_cases hc4 : getChar buf pos = ')'
    · refine ⟨⟨TokenKind.r_paren, pos, 1⟩, pos + 1, [], fun f hff => ?_, by omega,
        le_refl _, rfl, le_refl _, fun he => by simp at he, fun _ => by omega⟩
      cases f with
      | zero => omega
      | succ f => exact step_rparen buf f pos hc4
    by_cases hc5 : getChar buf pos = '\x7b'
    · refine ⟨⟨TokenKind.l_brace, pos, 1⟩, pos + 1, [], fun f hff => ?_, by omega,
        le_refl _, rfl, le_refl _, fun he => by simp at he, fun _ => by omega⟩
      cases f with
      | zero => omega
      | succ f => exact step_lbrace buf f pos hc5
    by_cases hc6 : getChar buf pos = '\x7d'
    · refine ⟨⟨TokenKind.r_brace, pos, 1⟩, pos + 1, [], fun f hff => ?_, by omega,
        le_refl _, rfl, le_refl _, fun he => by simp at he, fun _ => by omega⟩
      cases f with
      | zero => omega
      | succ f => exact step_rbrace buf f pos hc6
    by_cases hc7 : getChar buf pos = '['
    · refine ⟨⟨TokenKind.l_square, pos, 1⟩, pos + 1, [], fun f hff => ?_, by omega,
        le_refl _, rfl, le_refl _, fun he => by simp at he, fun _ => by omega⟩
      cases f with
      | zero => omega
      | succ f => exact step_lsquare buf f pos hc7
    by_cases hc8 : getChar buf pos = ']'
    · refine ⟨⟨TokenKind.r_square, pos, 1⟩, pos + 1, [], fun f hff => ?_, by omega,
        le_refl _, rfl, le_refl _, fun he => by simp at he, fun _ => by omega⟩
      cases f with
      | zero => omega
      | succ f => exact step_rsquare buf f pos hc8
    by_cases hc9 : getChar buf pos = '.'
    · refine ⟨⟨TokenKind.period, pos, 1⟩, pos + 1, [], fun f hff => ?_, by omega,
        le_refl _, rfl, le_refl _, fun he => by simp at he, fun _ => by omega⟩
      cases f with
      | zero => omega
      | succ f => exact step_period buf f pos hc9
    by_cases hc10 : getChar buf pos = ','
    · refine ⟨⟨TokenKind.comma, pos, 1⟩, pos + 1, [], fun f hff => ?_, by omega,
        le_refl _, rfl, le_refl _, fun he => by simp at he, fun _ => by omega⟩
      cases f with
      | zero => omega
      | succ f => exact step_comma buf f pos hc10
    by_cases hc11 : getChar buf pos = ';'
    · refine ⟨⟨TokenKind.semi, pos, 1⟩, pos + 1, [], fun f hff => ?_, by omega,
        le_refl _, rfl, le_refl _, fun he => by simp at he, fun _ => by omega⟩
      cases f with
      | zero => omega
      | succ f => exact step_semi buf f pos hc11
    by_cases hc12 : getChar buf pos = ':'
    · by_cases h2 : getChar buf (pos + 1) = ':'
      · have hlt2 : pos + 1 < buf.length := lt_of_getChar_ne_nul (by rw [h2]; decide)
        refine ⟨⟨TokenKind.coloncolon, pos, 2⟩, pos + 2, [], fun f hff => ?_, by omega,
          le_refl _, rfl, (by omega : (1 : Nat) ≤ 2), fun he => by simp at he,
          fun _ => by omega⟩
        cases f with
        | zero => omega
        | succ f => exact step_colon_double buf f pos hc12 h2
      · refine ⟨⟨TokenKind.colon, pos, 1⟩, pos + 1, [], fun f hff => ?_, by omega,
          le_refl _, rfl, le_refl _, fun he => by simp at he, fun _ => by omega⟩
        cases f with
        | zero => omega
        | succ f => exact step_colon_single buf f pos hc12 h2
    by_cases hc13 : getChar buf pos = '/'
    · by_cases h2 : getChar buf (pos + 1) = '/'
      · have hlt2 : pos + 1 < buf.length := lt_of_getChar_ne_nul (by rw [h2]; decide)
        obtain ⟨p2, ds2, hskipf, hs1, hs2, hs3⟩ :=
          skipComment_spec buf buf.length (pos + 1) (by omega) (by omega)
        have hp2 : pos + 1 < p2 := hs3 hlt2
        obtain ⟨tok, pos', ds, hf, hq1, hq2, hq3, hq4, hq5, hq6⟩ := ih p2 hs2 (by omega)
        refine ⟨tok, pos', ds2 ++ ds, fun f hff => ?_, by omega, by omega, hq3, hq4,
          hq5, hq6⟩
        cases f with
        | zero => omega
        | succ f =>
          rw [step_comment buf f pos hc13 h2 p2 ds2 (hskipf f (by omega)),
            hf f (by omega)]
          rfl
      · obtain ⟨e, kind, he1, he2, heq, _, _, _, _, hk3⟩ := lexPunct_spec buf pos (by omega)
        refine ⟨⟨kind, pos, e - pos⟩, e, [], fun f hff => ?_, by omega, le_refl _,
          (by omega : pos + (e - pos) = e), (by omega : 1 ≤ e - pos),
        fun he => ?_, fun _ => he2⟩
        · cases f with
          | zero => omega
          | succ f => rw [step_slash_punct buf f pos hc13 h2, heq f (by omega)]
        · rcases hk3 with rfl | rfl | rfl <;> simp at he
    by_cases hc14 : isOpDispatch (getChar buf pos)
    · obtain ⟨e, kind, he1, he2, heq, _, _, _, _, hk3⟩ := lexPunct_spec buf pos (by omega)
      refine ⟨⟨kind, pos, e - pos⟩, e, [], fun f hff => ?_, by omega, le_refl _,
        (by omega : pos + (e - pos) = e), (by omega : 1 ≤ e - pos),
        fun he => ?_, fun _ => he2⟩
      · cases f with
        | zero => omega
        | succ f => rw [step_op buf f pos hc14, heq f (by omega)]
      · rcases hk3 with rfl | rfl | rfl <;> simp at he
    by_cases hc15 : isIdentStart (getChar buf pos)
    · obtain ⟨e, he1, he2, heq, _, _⟩ := lexIdentifier_spec buf pos (by omega)
      refine ⟨⟨keywordKind (bufSlice buf pos e), pos, e - pos⟩, e, [], fun f hff => ?_,
        by omega, le_refl _, (by omega : pos + (e - pos) = e),
        (by omega : 1 ≤ e - pos),
        fun he => absurd he (keywordKind_ne_eof _), fun _ => he2⟩
      cases f with
      | zero => omega
      | succ f => rw [step_ident buf f pos hc15, heq f (by omega)]
    by_cases hc16 : getChar buf pos = '$'
    · obtain ⟨e, he1, he2, heq⟩ := lexDollarIdent_spec buf pos (by omega)
      refine ⟨⟨TokenKind.dollarident, pos, e - pos⟩, e, [], fun f hff => ?_, by omega,
        le_refl _, (by omega : pos + (e - pos) = e), (by omega : 1 ≤ e - pos),
        fun he => by simp at he, fun _ => he2⟩
      cases f with
      | zero => omega
      | succ f => rw [step_dollar buf f pos hc16, heq f (by omega)]
    by_cases hc17 : isDigitChar (getChar buf pos)
    · obtain ⟨e, he1, he2, heq⟩ := lexDigit_spec buf pos (by omega)
      refine ⟨⟨TokenKind.numeric_constant, pos, e - pos⟩, e, [], fun f hff => ?_,
        by omega, le_refl _, (by omega : pos + (e - pos) = e),
        (by omega : 1 ≤ e - pos), fun he => by simp at he,
        fun _ => he2⟩
      cases f with
      | zero => omega
      | succ f => rw [step_digit buf f pos hc17, heq f (by omega)]
    have hinv : ¬ isHandled (getChar buf pos) := by
      intro hh
      rcases hh with h | h | h | h | h | h | h | h | h | h | h | h | h | h | h | h | h
      exacts [hws h, hnc h, hc3 h, hc4 h, hc5 h, hc6 h, hc7 h, hc8 h, hc9 h, hc10 h,
        hc11 h, hc12 h, hc13 h, hc14 h, hc15 h, hc16 h, hc17 h]
    refine ⟨⟨TokenKind.unknown, pos, 1⟩, pos + 1, [invalidCharError pos],
      fun f hff => ?_, by omega, le_refl _, rfl, le_refl _,
      fun he => by simp at he, fun _ => by omega⟩
    cases f with
    | zero => omega
    | succ f => exact step_unknown buf f pos hinv

theorem lex_spec (buf : List Char) (pos : Nat) (h : pos ≤ buf.length) :
    ∃ tok pos' ds, lex buf pos = some (tok, pos', ds) ∧
      pos < pos' ∧ pos ≤ tok.start ∧ tok.start + tok.length = pos' ∧
      1 ≤ tok.length ∧
      (tok.kind = TokenKind.eof → tok.start = buf.length ∧ tok.length = 1) ∧
      (tok.kind ≠ TokenKind.eof → pos' ≤ buf.length) := by
  obtain ⟨tok, pos', ds, hf, h1, h2, h3, h4, h5, h6⟩ :=
    lexLoop_spec buf buf.length pos h (by omega)
  exact ⟨tok, pos', ds, hf (buf.length + 2) (by omega), h1, h2, h3, h4, h5, h6⟩

/-! ## The caller protocol: reaching end-of-input, and reconstruction -/

theorem callsToEof_spec (buf : List Char) :
    ∀ k pos, pos ≤ buf.length → buf.length + 1 - pos ≤ k →
    ∃ n, callsToEof buf k pos = some n ∧ n ≤ buf.length + 1 - pos := by
  intro k
  induction k with
  | zero => intro pos h1 h2; omega
  | succ k ih =>
    intro pos h1 h2
    obtain ⟨tok, pos', ds, hlex, hp1, hp2, hp3, hp4, hp5, hp6⟩ := lex_spec buf pos h1
    by_cases he : tok.kind = TokenKind.eof
    · refine ⟨1, ?_, by omega⟩
      simp only [callsToEof]
      rw [hlex]
      show (if tok.kind = TokenKind.eof then some 1
        else (callsToEof buf k pos').map (· + 1)) = some 1
      rw [if_pos he]
    · have hle : pos' ≤ buf.length := hp6 he
      obtain ⟨n, hn, hn2⟩ := ih pos' hle (by omega)
      refine ⟨n + 1, ?_, by omega⟩
      simp only [callsToEof]
      rw [hlex]
      show (if tok.kind = TokenKind.eof then some 1
        else (callsToEof buf k pos').map (· + 1)) = some (n + 1)
      rw [if_neg he, hn]
      rfl

theorem runPieces_spec (buf : List Char) :
    ∀ k pos, pos ≤ buf.length → buf.length + 1 - pos ≤ k →
    ∃ ps, runPieces buf k pos = some ps ∧
      (ps.map fun pc => pc.1 ++ pc.2).flatten = bufSlice buf pos buf.length := by
  intro k
  induction k with
  | zero => intro pos h1 h2; omega
  | succ k ih =>
    intro pos h1 h2
    obtain ⟨tok, pos', ds, hlex, hp1, hp2, hp3, hp4, hp5, hp6⟩ := lex_spec buf pos h1
    by_cases he : tok.kind = TokenKind.eof
    · obtain ⟨hstart, _⟩ := hp5 he
      refine ⟨[(bufSlice buf pos tok.start, [])], ?_, ?_⟩
      · simp only [runPieces]
        rw [hlex]
        show (if tok.kind = TokenKind.eof then some [(bufSlice buf pos tok.start, [])]
          else (runPieces buf k pos').map
            (fun rest => (bufSlice buf pos tok.start, tokenText buf tok) :: rest)) =
          some [(bufSlice buf pos tok.start, [])]
        rw [if_pos he]
      · simp [hstart]
    · have hle : pos' ≤ buf.length := hp6 he
      obtain ⟨ps, hps, hjoin⟩ := ih pos' hle (by omega)
      refine ⟨(bufSlice buf pos tok.start, tokenText buf tok) :: ps, ?_, ?_⟩
      · simp only [runPieces]
        rw [hlex]
        show (if tok.kind = TokenKind.eof then some [(bufSlice buf pos tok.start, [])]
          else (runPieces buf k pos').map
            (fun rest => (bufSlice buf pos tok.start, tokenText buf tok) :: rest)) =
          some ((bufSlice buf pos tok.start, tokenText buf tok) :: ps)
        rw [if_neg he, hps]
        rfl
      · simp only [List.map_cons, List.flatten_cons, hjoin]
        rw [show tokenText buf tok = bufSlice buf tok.start pos' by
          rw [tokenText, hp3]]
        rw [bufSlice_append hp2 (by omega), bufSlice_append (by omega) hle]

/-- Once the cursor has been pushed past the buffer end (which is what the
`eof` case of `Lex` does), the dispatch loop never returns: every read yields
the nul sentinel at a position that is not `getBufferEnd()`, so the loop
warns and restarts forever. -/
theorem lexLoop_none_of_gt (buf : List Char) :
    ∀ f pos, buf.length < pos → lexLoop buf f pos = none := by
  intro f
  induction f with
  | zero => intro pos _; rfl
  | succ f ih =>
    intro pos h
    rw [step_nulmid buf f pos (getChar_eq_nul_of_ge (by omega)) (by omega),
      ih (pos + 1) (by omega)]
    rfl

/-! ## Lexing at a trigger character -/

theorem lex_ident_char (buf : List Char) (pos : Nat)
    (h : isIdentStart (getChar buf pos)) :
    ∃ e, lex buf pos =
        some (⟨keywordKind (bufSlice buf pos e), pos, e - pos⟩, e, []) ∧
      pos + 1 ≤ e ∧ e ≤ buf.length ∧
      (∀ q, pos + 1 ≤ q → q < e → isIdentCont (getChar buf q)) ∧
      ¬ isIdentCont (getChar buf e) := by
  have hlt : pos < buf.length := by
    by_contra hge
    rw [getChar_eq_nul_of_ge (by omega)] at h
    exact absurd h (by decide)
  obtain ⟨e, he1, he2, heq, hmax1, hmax2⟩ := lexIdentifier_spec buf pos (by omega)
  refine ⟨e, ?_, he1, he2, hmax1, hmax2⟩
  show lexLoop buf (buf.length + 1 + 1) pos = _
  rw [step_ident buf (buf.length + 1) pos h, heq (buf.length + 1) (by omega)]

theorem lex_punct_char (buf : List Char) (pos : Nat)
    (h : isPunctChar (getChar buf pos))
    (hns : ¬ (getChar buf pos = '/' ∧ getChar buf (pos + 1) = '/')) :
    ∃ tok e, lex buf pos = some (tok, e, []) ∧ tok.start = pos ∧
      tok.length = e - pos ∧ pos + 1 ≤ e ∧ e ≤ buf.length ∧
      (∀ q, pos + 1 ≤ q → q < e → isPunctChar (getChar buf q)) ∧
      ¬ isPunctChar (getChar buf e) ∧
      (tok.kind = TokenKind.equal ↔ bufSlice buf pos e = ['=']) ∧
      (tok.kind = TokenKind.arrow ↔ bufSlice buf pos e = ['-', '>']) ∧
      (tok.kind = TokenKind.identifier ↔
        bufSlice buf pos e ≠ ['='] ∧ bufSlice buf pos e ≠ ['-', '>']) := by
  have hlt : pos < buf.length := by
    by_contra hge
    rw [getChar_eq_nul_of_ge (by omega)] at h
    exact absurd h (by decide)
  obtain ⟨e, kind, he1, he2, heq, hmax1, hmax2, hk1, hk2, hk3⟩ :=
    lexPunct_spec buf pos (by omega)
  have hlen : (bufSlice buf pos e).length = e - pos := bufSlice_length (by omega) he2
  have hcons : bufSlice buf pos e = getChar buf pos :: bufSlice buf (pos + 1) e :=
    bufSlice_cons hlt (by omega)
  have hsl1 : bufSlice buf pos e = ['='] ↔ e - pos = 1 ∧ getChar buf pos = '=' := by
    constructor
    · intro hsl
      have hl : e - pos = 1 := by rw [← hlen, hsl]; rfl
      refine ⟨hl, ?_⟩
      rw [hcons] at hsl
      exact (List.cons_eq_cons.mp hsl).1
    · rintro ⟨hn, hc⟩
      have he' : e = pos + 1 := by omega
      rw [hcons, hc, he', bufSlice_nil (le_refl _)]
  have hsl2 : bufSlice buf pos e = ['-', '>'] ↔
      e - pos = 2 ∧ getChar buf pos = '-' ∧ getChar buf (pos + 1) = '>' := by
    constructor
    · intro hsl
      have hl : e - pos = 2 := by rw [← hlen, hsl]; rfl
      have hlt2 : pos + 1 < buf.length := by omega
      rw [hcons, bufSlice_cons hlt2 (by omega)] at hsl
      obtain ⟨h1, hrest⟩ := List.cons_eq_cons.mp hsl
      obtain ⟨h2, _⟩ := List.cons_eq_cons.mp hrest
      exact ⟨hl, h1, h2⟩
    · rintro ⟨hn, hc1, hc2⟩
      have hlt2 : pos + 1 < buf.length := by omega
      rw [hcons, bufSlice_cons hlt2 (by omega), hc1, hc2,
        show e = pos + 2 by omega, bufSlice_nil (le_refl _)]
  have hlex : lex buf pos = some (⟨kind, pos, e - pos⟩, e, []) := by
    rcases h with hslash | hop
    · have h2 : getChar buf (pos + 1) ≠ '/' := fun hh => hns ⟨hslash, hh⟩
      show lexLoop buf (buf.length + 1 + 1) pos = _
      rw [step_slash_punct buf (buf.length + 1) pos hslash h2,
        heq (buf.length + 1) (by omega)]
    · show lexLoop buf (buf.length + 1 + 1) pos = _
      rw [step_op buf (buf.length + 1) pos hop, heq (buf.length + 1) (by omega)]
  refine ⟨⟨kind, pos, e - pos⟩, e, hlex, rfl, rfl, he1, he2, hmax1, hmax2,
    hk1.trans hsl1.symm, hk2.trans hsl2.symm, ?_⟩
  constructor
  · intro hid
    have hid2 : kind = TokenKind.identifier := hid
    constructor
    · intro hsl
      have h' := hk1.mpr (hsl1.mp hsl)
      rw [hid2] at h'
      exact absurd h' (by decide)
    · intro hsl
      have h' := hk2.mpr (hsl2.mp hsl)
      rw [hid2] at h'
      exact absurd h' (by decide)
  · rintro ⟨hne1, hne2⟩
    rcases hk3 with rfl | rfl | rfl
    · exact absurd (hsl1.mpr (hk1.mp rfl)) hne1
    · exact absurd (hsl2.mpr (hk2.mp rfl)) hne2
    · rfl

theorem lex_invalid_char (buf : List Char) (pos : Nat)
    (h : ¬ isHandled (getChar buf pos)) :
    lex buf pos =
      some (⟨TokenKind.unknown, pos, 1⟩, pos + 1, [invalidCharError pos]) := by
  show lexLoop buf (buf.length + 1 + 1) pos = _
  exact step_unknown buf (buf.length + 1) pos h

theorem lex_nul_skip (buf : List Char) (pos : Nat) (hlt : pos < buf.length)
    (hnul : getChar buf pos = nulChar) :
    ∃ tok pos' ds, lex buf pos = some (tok, pos', nulWarning pos :: ds) ∧
      lex buf (pos + 1) = some (tok, pos', ds) := by
  obtain ⟨tok, pos', ds, hf, _, _, _, _, _, _⟩ :=
    lexLoop_spec buf buf.length (pos + 1) (by omega) (by omega)
  refine ⟨tok, pos', ds, ?_, hf (buf.length + 2) (by omega)⟩
  show lexLoop buf (buf.length + 1 + 1) pos = _
  rw [step_nulmid buf (buf.length + 1) pos hnul (by omega),
    hf (buf.length + 1) (by omega)]
  rfl

/-! ## The claims -/

/-- Claim C1: after `Lex` has returned an end-of-input token, every further
call should return end-of-input again, and the end-of-input call should not
advance the cursor past the true end of the buffer.  The code violates this:
already on the empty buffer, the `eof` path forms its token after `*CurPtr++`
has consumed the sentinel and never steps back, so the call returns the `eof`
token with the cursor at `buf.length + 1` — past the true end and in
violation of the entry assertion `CurPtr <= Buffer->getBufferEnd()` — and a
subsequent call never returns an `eof` token (in this model it never
returns at all: every further read is a nul at a position other than the
buffer end, so the loop warns and restarts forever). -/
theorem c1_eof_not_terminal :
    lex [] 0 = some (⟨TokenKind.eof, 0, 1⟩, ([] : List Char).length + 1, []) ∧
    (∀ f, lexLoop [] f (([] : List Char).length + 1) = none) :=
  ⟨by decide, fun f => lexLoop_none_of_gt [] f 1 (by decide)⟩

/-- Claim C2: the cursor should stay within `[start, end]` for every sequence
of calls, and no character past the buffer end should be read.  The code
violates the cursor invariant: on the buffer `"a"`, the second call returns
`eof` and leaves the cursor at `2 > length = 1`; a third call reads past the
end and never returns. -/
theorem c2_cursor_invariant_broken :
    lex ['a'] 0 = some (⟨TokenKind.identifier, 0, 1⟩, 1, []) ∧
    lex ['a'] 1 = some (⟨TokenKind.eof, 1, 1⟩, 2, []) ∧
    (['a'] : List Char).length < 2 ∧
    (∀ f, lexLoop ['a'] f 2 = none) :=
  ⟨by decide, by decide, by decide, fun f => lexLoop_none_of_gt ['a'] f 2 (by decide)⟩

/-- Claim C3: for every buffer of length `N`, repeatedly calling `Lex` until
an end-of-input token is returned terminates after at most `N + 1` calls, and
every call that does not return end-of-input returns a token whose text range
is non-empty and strictly advances the cursor. -/
theorem c3_termination_and_progress (buf : List Char) :
    (∃ n, callsToEof buf (buf.length + 1) 0 = some n ∧ n ≤ buf.length + 1) ∧
    (∀ pos tok pos' ds, pos ≤ buf.length → lex buf pos = some (tok, pos', ds) →
      tok.kind ≠ TokenKind.eof →
      1 ≤ tok.length ∧ pos < pos' ∧ tok.start + tok.length = pos') := by
  constructor
  · obtain ⟨n, hn, hn2⟩ := callsToEof_spec buf (buf.length + 1) 0 (by omega) (by omega)
    exact ⟨n, hn, by omega⟩
  · intro pos tok pos' ds hpos hlex hne
    obtain ⟨tok0, pos0, ds0, hlex0, h1, h2, h3, h4, h5, h6⟩ := lex_spec buf pos hpos
    rw [hlex0] at hlex
    simp only [Option.some.injEq, Prod.mk.injEq] at hlex
    obtain ⟨rfl, rfl, rfl⟩ := hlex
    exact ⟨h4, h1, h3⟩

/-- Witness for C3 on the buffer `"a b"`: the run reaches end-of-input within
the bound, and the first call returns the non-empty identifier token `[0,1)`,
advancing the cursor from 0 to 1. -/
theorem c3_witness :
    (∃ n, callsToEof ("a b".toList) ("a b".toList.length + 1) 0 = some n ∧
      n ≤ "a b".toList.length + 1) ∧
    (1 ≤ (⟨TokenKind.identifier, 0, 1⟩ : Token).length ∧ 0 < 1 ∧
      (⟨TokenKind.identifier, 0, 1⟩ : Token).start +
        (⟨TokenKind.identifier, 0, 1⟩ : Token).length = 1) :=
  ⟨(c3_termination_and_progress ("a b".toList)).1,
   (c3_termination_and_progress ("a b".toList)).2 0 ⟨TokenKind.identifier, 0, 1⟩ 1 []
     (by decide) (by decide) (by decide)⟩

/-- Claim C4: the in-order concatenation of the text spans of all tokens
returned before end-of-input, together with the skipped whitespace, embedded
nuls and comments, reconstructs the original buffer exactly. -/
theorem c4_reconstruction (buf : List Char) :
    ∃ ps, runPieces buf (buf.length + 1) 0 = some ps ∧
      (ps.map fun pc => pc.1 ++ pc.2).flatten = buf := by
  obtain ⟨ps, hps, hjoin⟩ :=
    runPieces_spec buf (buf.length + 1) 0 (by omega) (by omega)
  exact ⟨ps, hps, by rw [hjoin]; exact bufSlice_self buf⟩

/-- Claim C5: a token lexed from a letter or underscore spans the maximal run
of letters, digits, underscores and `$`, and carries a reserved-word kind
exactly when its text equals, case-sensitively, one of the six reserved
spellings; every other such span gets the generic identifier kind. -/
theorem c5_reserved_words (buf : List Char) (pos : Nat)
    (h : isIdentStart (getChar buf pos)) :
    ∃ tok pos', lex buf pos = some (tok, pos', []) ∧ tok.start = pos ∧
      tok.start + tok.length = pos' ∧
      (∀ q, pos < q → q < pos' → isIdentCont (getChar buf q)) ∧
      ¬ isIdentCont (getChar buf pos') ∧
      (tok.kind = TokenKind.kw_func ↔ bufSlice buf pos pos' = "func".toList) ∧
      (tok.kind = TokenKind.kw_var ↔ bufSlice buf pos pos' = "var".toList) ∧
      (tok.kind = TokenKind.kw_struct ↔ bufSlice buf pos pos' = "struct".toList) ∧
      (tok.kind = TokenKind.kw_typealias ↔
        bufSlice buf pos pos' = "typealias".toList) ∧
      (tok.kind = TokenKind.kw_oneof ↔ bufSlice buf pos pos' = "oneof".toList) ∧
      (tok.kind = TokenKind.kw___builtin_int32_type ↔
        bufSlice buf pos pos' = "__builtin_int32_type".toList) ∧
      (tok.kind = TokenKind.identifier ↔
        (bufSlice buf pos pos' ≠ "func".toList ∧
         bufSlice buf pos pos' ≠ "var".toList ∧
         bufSlice buf pos pos' ≠ "struct".toList ∧
         bufSlice buf pos pos' ≠ "typealias".toList ∧
         bufSlice buf pos pos' ≠ "oneof".toList ∧
         bufSlice buf pos pos' ≠ "__builtin_int32_type".toList)) := by
  obtain ⟨e, hlex, he1, he2, hmax1, hmax2⟩ := lex_ident_char buf pos h
  obtain ⟨k1, k2, k3, k4, k5, k6, k7⟩ := keywordKind_cases (bufSlice buf pos e)
  exact ⟨⟨keywordKind (bufSlice buf pos e), pos, e - pos⟩, e, hlex, rfl,
    (by omega : pos + (e - pos) = e), fun q hq1 hq2 => hmax1 q (by omega) hq2,
    hmax2, k1, k2, k3, k4, k5, k6, k7⟩

/-- Witness for C5 on the buffer `"func"`: the spelling `func` lexes with the
reserved-word kind, as the instantiated equivalences state. -/
theorem c5_witness :
    ∃ tok pos', lex ("func".toList) 0 = some (tok, pos', []) ∧ tok.start = 0 ∧
      tok.start + tok.length = pos' ∧
      (∀ q, 0 < q → q < pos' → isIdentCont (getChar ("func".toList) q)) ∧
      ¬ isIdentCont (getChar ("func".toList) pos') ∧
      (tok.kind = TokenKind.kw_func ↔
        bufSlice ("func".toList) 0 pos' = "func".toList) ∧
      (tok.kind = TokenKind.kw_var ↔
        bufSlice ("func".toList) 0 pos' = "var".toList) ∧
      (tok.kind = TokenKind.kw_struct ↔
        bufSlice ("func".toList) 0 pos' = "struct".toList) ∧
      (tok.kind = TokenKind.kw_typealias ↔
        bufSlice ("func".toList) 0 pos' = "typealias".toList) ∧
      (tok.kind = TokenKind.kw_oneof ↔
        bufSlice ("func".toList) 0 pos' = "oneof".toList) ∧
      (tok.kind = TokenKind.kw___builtin_int32_type ↔
        bufSlice ("func".toList) 0 pos' = "__builtin_int32_type".toList) ∧
      (tok.kind = TokenKind.identifier ↔
        (bufSlice ("func".toList) 0 pos' ≠ "func".toList ∧
         bufSlice ("func".toList) 0 pos' ≠ "var".toList ∧
         bufSlice ("func".toList) 0 pos' ≠ "struct".toList ∧
         bufSlice ("func".toList) 0 pos' ≠ "typealias".toList ∧
         bufSlice ("func".toList) 0 pos' ≠ "oneof".toList ∧
         bufSlice ("func".toList) 0 pos' ≠ "__builtin_int32_type".toList)) :=
  c5_reserved_words ("func".toList) 0 (by decide)

/-- Claim C6: a maximal operator-character run lexed as one token is
reclassified as the assignment kind exactly when it is `=`, as the arrow kind
exactly when it is `->`; every other run (including `==`, `+=`, `<<`, and a
single `/` not followed by `/`) is one token of the generic
operator-identifier kind spanning the full run. -/
theorem c6_operator_runs (buf : List Char) (pos : Nat)
    (h : isPunctChar (getChar buf pos))
    (hns : ¬ (getChar buf pos = '/' ∧ getChar buf (pos + 1) = '/')) :
    ∃ tok pos', lex buf pos = some (tok, pos', []) ∧ tok.start = pos ∧
      tok.length = pos' - pos ∧ pos < pos' ∧
      (∀ q, pos < q → q < pos' → isPunctChar (getChar buf q)) ∧
      ¬ isPunctChar (getChar buf pos') ∧
      (tok.kind = TokenKind.equal ↔ bufSlice buf pos pos' = ['=']) ∧
      (tok.kind = TokenKind.arrow ↔ bufSlice buf pos pos' = ['-', '>']) ∧
      (tok.kind = TokenKind.identifier ↔
        (bufSlice buf pos pos' ≠ ['='] ∧ bufSlice buf pos pos' ≠ ['-', '>'])) := by
  obtain ⟨tok, e, hlex, h1, h2, h3, h4, h5, h6, h7, h8, h9⟩ :=
    lex_punct_char buf pos h hns
  exact ⟨tok, e, hlex, h1, h2, by omega, fun q hq1 hq2 => h5 q (by omega) hq2, h6,
    h7, h8, h9⟩

/-- Witness for C6 on the buffer `"=="`: the two-character run is one token,
and the instantiated equivalences classify it. -/
theorem c6_witness :
    ∃ tok pos', lex ("==".toList) 0 = some (tok, pos', []) ∧ tok.start = 0 ∧
      tok.length = pos' - 0 ∧ 0 < pos' ∧
      (∀ q, 0 < q → q < pos' → isPunctChar (getChar ("==".toList) q)) ∧
      ¬ isPunctChar (getChar ("==".toList) pos') ∧
      (tok.kind = TokenKind.equal ↔ bufSlice ("==".toList) 0 pos' = ['=']) ∧
      (tok.kind = TokenKind.arrow ↔ bufSlice ("==".toList) 0 pos' = ['-', '>']) ∧
      (tok.kind = TokenKind.identifier ↔
        (bufSlice ("==".toList) 0 pos' ≠ ['='] ∧
         bufSlice ("==".toList) 0 pos' ≠ ['-', '>'])) :=
  c6_operator_runs ("==".toList) 0 (by decide) (by decide)

/-- Claim C7: a character matched by no dispatch case yields exactly one
error diagnostic at its position and a single-character unknown token, and
subsequent calls still reach end-of-input. -/
theorem c7_invalid_character (buf : List Char) (pos : Nat)
    (h : ¬ isHandled (getChar buf pos)) :
    lex buf pos =
      some (⟨TokenKind.unknown, pos, 1⟩, pos + 1, [invalidCharError pos]) ∧
    ∃ n, callsToEof buf (buf.length + 1) (pos + 1) = some n := by
  have hlt : pos < buf.length :=
    lt_of_getChar_ne_nul (fun hh => h (Or.inr (Or.inl hh)))
  refine ⟨lex_invalid_char buf pos h, ?_⟩
  obtain ⟨n, hn, _⟩ :=
    callsToEof_spec buf (buf.length + 1) (pos + 1) (by omega) (by omega)
  exact ⟨n, hn⟩

/-- Witness for C7 on the buffer `"@"`: one unknown token of length 1 with
one error diagnostic, and the run from position 1 still reaches
end-of-input. -/
theorem c7_witness :
    lex ("@".toList) 0 =
      some (⟨TokenKind.unknown, 0, 1⟩, 1, [invalidCharError 0]) ∧
    ∃ n, callsToEof ("@".toList) ("@".toList.length + 1) 1 = some n :=
  c7_invalid_character ("@".toList) 0 (by decide)

/-- Claim C8: a nul strictly before the true end of the buffer is reported as
a warning and skipped like whitespace by the dispatch loop (emitting no token
of its own: the call returns exactly what lexing from the next position
returns, with the warning prepended), and inside a `//` comment it is
ordinary content that does not terminate the comment (the skipper continues
from the next position, with the warning prepended). -/
theorem c8_embedded_nul (buf : List Char) (pos : Nat) (hlt : pos < buf.length)
    (hnul : getChar buf pos = nulChar) :
    (∃ tok pos' ds, lex buf pos = some (tok, pos', nulWarning pos :: ds) ∧
      lex buf (pos + 1) = some (tok, pos', ds)) ∧
    (∃ p2 ds, (∀ f, buf.length - pos < f →
        skipComment buf f pos = some (p2, nulWarning pos :: ds)) ∧
      (∀ f, buf.length - (pos + 1) < f →
        skipComment buf f (pos + 1) = some (p2, ds))) := by
  refine ⟨lex_nul_skip buf pos hlt hnul, ?_⟩
  obtain ⟨p2, ds, hf, _, _, _⟩ :=
    skipComment_spec buf buf.length (pos + 1) (by omega) (by omega)
  refine ⟨p2, ds, fun f hff => ?_, hf⟩
  cases f with
  | zero => omega
  | succ f =>
    rw [skip_step_nul buf f pos hnul (by omega), hf f (by omega)]
    rfl

/-- Witness for C8 on the buffer `"\x00a"` at position 0: the embedded nul is
warned about and skipped both by the dispatch loop and by the comment
skipper. -/
theorem c8_witness :
    (∃ tok pos' ds, lex ['\x00', 'a'] 0 = some (tok, pos', nulWarning 0 :: ds) ∧
      lex ['\x00', 'a'] 1 = some (tok, pos', ds)) ∧
    (∃ p2 ds, (∀ f, (['\x00', 'a'] : List Char).length - 0 < f →
        skipComment ['\x00', 'a'] f 0 = some (p2, nulWarning 0 :: ds)) ∧
      (∀ f, (['\x00', 'a'] : List Char).length - 1 < f →
        skipComment ['\x00', 'a'] f 1 = some (p2, ds))) :=
  c8_embedded_nul ['\x00', 'a'] 0 (by decide) (by decide)

/-- Claim C9: after a `//` marker the skipper consumes characters up to and
including the next newline or carriage return, producing no token for the
comment (in `"// comment\nfoo"` the first returned token is the identifier
`foo`); if the true end of the buffer is reached without a terminating
newline, the cursor is stepped back to the end sentinel, a
`"no newline at end of // comment"` warning is reported, and the next
dispatch-loop iteration produces the end-of-input token. -/
theorem c9_comment_skipper :
    (lex ("// comment\nfoo".toList) 0 =
        some (⟨TokenKind.identifier, 11, 3⟩, 14, []) ∧
      bufSlice ("// comment\nfoo".toList) 11 14 = "foo".toList) ∧
    (∀ (buf : List Char) (p : Nat), p ≤ buf.length →
      (∀ q, p ≤ q → q < buf.length →
        getChar buf q ≠ '\n' ∧ getChar buf q ≠ '\r' ∧ getChar buf q ≠ nulChar) →
      (∀ f, buf.length - p < f →
        skipComment buf f p =
          some (buf.length, [noNewlineWarning (buf.length - 1)])) ∧
      (∀ f, lexLoop buf (f + 1) buf.length =
        some (⟨TokenKind.eof, buf.length, 1⟩, buf.length + 1, []))) := by
  refine ⟨⟨by decide, by decide⟩,
    fun buf p hp hq => ⟨?_, fun f => step_eof buf f buf.length rfl⟩⟩
  exact skipComment_noNewline buf buf.length p hp (by omega) hq

/-- Witness for C9 on the buffer `"//x"` from position 2 (just past the `//`
marker): the skipper stops at the end sentinel with the no-newline warning,
and the next dispatch iteration yields the end-of-input token. -/
theorem c9_witness :
    (∀ f, ("//x".toList).length - 2 < f →
      skipComment ("//x".toList) f 2 =
        some (("//x".toList).length,
          [noNewlineWarning (("//x".toList).length - 1)])) ∧
    (∀ f, lexLoop ("//x".toList) (f + 1) ("//x".toList).length =
      some (⟨TokenKind.eof, ("//x".toList).length, 1⟩,
        ("//x".toList).length + 1, [])) :=
  c9_comment_skipper.2 ("//x".toList) 2 (by decide)
    (fun q hq1 hq2 => by
      have hlen : ("//x".toList).length = 3 := by decide
      rw [hlen] at hq2
      have hq : q = 2 := by omega
      subst hq
      decide)

/-- Claim C10: an operator run other than exactly `=` and `->` receives
literally the same kind tag as a generic alphabetic identifier such as
`abc` — the lexer has no operator-run kind distinct from the identifier
kind. -/
theorem c10_operator_kind_is_identifier (buf : List Char) (pos : Nat)
    (tok : Token) (pos' : Nat) (ds : List Diag)
    (h : isPunctChar (getChar buf pos))
    (hns : ¬ (getChar buf pos = '/' ∧ getChar buf (pos + 1) = '/'))
    (hlex : lex buf pos = some (tok, pos', ds))
    (h1 : bufSlice buf pos pos' ≠ ['='])
    (h2 : bufSlice buf pos pos' ≠ ['-', '>']) :
    tok.kind = TokenKind.identifier ∧
    ∃ tok2 pos2, lex ("abc".toList) 0 = some (tok2, pos2, []) ∧
      tok2.kind = tok.kind := by
  obtain ⟨tok0, e, hlex0, g1, g2, g3, g4, g5, g6, g7, g8, g9⟩ :=
    lex_punct_char buf pos h hns
  rw [hlex0] at hlex
  simp only [Option.some.injEq, Prod.mk.injEq] at hlex
  obtain ⟨rfl, rfl, rfl⟩ := hlex
  have hid : tok0.kind = TokenKind.identifier := g9.mpr ⟨h1, h2⟩
  exact ⟨hid, ⟨TokenKind.identifier, 0, 3⟩, 3, by decide, by rw [hid]⟩

/-- Witness for C10 on the buffer `"<<"`: the run lexes as one token whose
kind tag is the very same `identifier` tag that `"abc"` receives. -/
theorem c10_witness :
    (⟨TokenKind.identifier, 0, 2⟩ : Token).kind = TokenKind.identifier ∧
    ∃ tok2 pos2, lex ("abc".toList) 0 = some (tok2, pos2, []) ∧
      tok2.kind = (⟨TokenKind.identifier, 0, 2⟩ : Token).kind :=
  c10_operator_kind_is_identifier ("<<".toList) 0 ⟨TokenKind.identifier, 0, 2⟩ 2 []
    (by decide) (by decide) (by decide) (by decide) (by decide)
